import Mathlib

/-
Verification development for the OpenWebRX settings controller
(src/owrx/controllers/settings.py).

The file embeds, as executable Lean definitions:
  * the Python-dict operations used by the controller (insertion-ordered
    association lists with in-place overwrite, matching Python 3.7+ dicts);
  * the body decoder `urllib.parse.parse_qs` exactly as it is invoked at
    settings.py line 367 (`keep_blank_values=True`), modelled at the
    ASCII level for percent escapes;
  * `Section` (settings.py lines 31-53) with its `render`, `render_inputs`
    and `parse` methods;
  * `GeneralSettingsController.processFormData` (settings.py lines 366-377),
    with the externally observable actions (store mutations, `Config.store()`
    persistence, `send_redirect`) recorded as an explicit event trace and the
    process-wide `Config` object passed as an explicit store argument;
  * the Input widgets used as concrete instances, modelled from the spec
    because the `owrx.form` module is outside this file set.
-/

set_option maxRecDepth 4000

namespace OpenWebRX

/-- Store keys are plain strings. -/
abbrev Key := String

/-- Stored / parsed values.  `null` embeds Python `None`, which is also the
deletion marker of the commit loop; the remaining constructors cover the
value shapes produced by the modelled Input variants (strings, integers,
booleans, string collections). -/
inductive Value where
  | null
  | str (s : String)
  | int (n : Int)
  | bool (b : Bool)
  | strlist (xs : List String)
deriving DecidableEq

/-- The configuration store: an insertion-ordered key-value mapping,
mirroring the Python `Config` dict. -/
abbrev Config := List (Key × Value)

/-- The canonical decoded form body: key to ordered list of submitted
strings, as produced by `parse_qs`. -/
abbrev RawData := List (Key × List String)

/-- A per-field validation failure raised by an Input's `parse`. -/
structure ValidationError where
  key : Key
  message : String
deriving DecidableEq

/-- Lookup in an insertion-ordered dict (Python `d[k]` / `k in d`). -/
def dictLookup {α : Type} : List (Key × α) → Key → Option α
  | [], _ => Option.none
  | (k', v) :: rest, k => if k = k' then some v else dictLookup rest k

/-- Python dict assignment `d[k] = v`: overwrite in place when the key is
present, append otherwise. -/
def dictInsert {α : Type} : List (Key × α) → Key → α → List (Key × α)
  | [], k, v => [(k, v)]
  | (k', v') :: rest, k, v =>
    if k' = k then (k', v) :: rest else (k', v') :: dictInsert rest k v

/-- Python `del d[k]`. -/
def dictDelete {α : Type} (d : List (Key × α)) (k : Key) : List (Key × α) :=
  d.filter (fun kv => kv.1 != k)

/-- Python `k in d`. -/
def dictContains {α : Type} (d : List (Key × α)) (k : Key) : Bool :=
  (dictLookup d k).isSome

/-- Insert a batch of pairs in order (the effect of extending a dict
comprehension with the `.items()` of another dict). -/
def dictUpdate {α : Type} (d : List (Key × α)) (entries : List (Key × α)) :
    List (Key × α) :=
  entries.foldl (fun acc kv => dictInsert acc kv.1 kv.2) d

/-- Python `str.split(sep)` for a one-character separator. -/
def splitOnChar (sep : Char) : List Char → List (List Char)
  | [] => [[]]
  | c :: rest =>
    if c = sep then [] :: splitOnChar sep rest
    else
      match splitOnChar sep rest with
      | h :: t => (c :: h) :: t
      | [] => [[c]]

/-- Python `s.split('=', 1)`: the part before the first `=` and, when a `=`
exists, the remainder after it. -/
def splitFirstEq : List Char → List Char × Option (List Char)
  | [] => ([], Option.none)
  | c :: rest =>
    if c = '=' then ([], some rest)
    else
      let r := splitFirstEq rest
      (c :: r.1, r.2)

/-- Python `s.replace('+', ' ')`. -/
def replacePlus (cs : List Char) : List Char :=
  cs.map (fun c => if c = '+' then ' ' else c)

/-- Hexadecimal digit value, as accepted by `urllib.parse.unquote`. -/
def hexVal (c : Char) : Option Nat :=
  if '0' ≤ c ∧ c ≤ '9' then some (c.toNat - '0'.toNat)
  else if 'a' ≤ c ∧ c ≤ 'f' then some (c.toNat - 'a'.toNat + 10)
  else if 'A' ≤ c ∧ c ≤ 'F' then some (c.toNat - 'A'.toNat + 10)
  else Option.none

/-- Percent-decoding of `urllib.parse.unquote`, modelled at the ASCII level:
a valid `%XX` escape becomes the character with code `XX`, an invalid escape
is kept literally.  (Python additionally UTF-8-decodes consecutive escaped
bytes above 0x7F; no claim depends on that range.) -/
def unquoteChars : List Char → List Char
  | [] => []
  | '%' :: c1 :: c2 :: rest =>
    (match hexVal c1, hexVal c2 with
     | some h, some l => Char.ofNat (16 * h + l) :: unquoteChars rest
     | _, _ => '%' :: unquoteChars (c1 :: c2 :: rest))
  | c :: rest => c :: unquoteChars rest

/-- One pair of `urllib.parse.parse_qsl` with `keep_blank_values=True`: an
empty fragment is skipped; a fragment without `=` is treated as a name with
blank value; name and value have `+` replaced by space and are
percent-decoded. -/
def qslPair (nv : List Char) : Option (String × String) :=
  if nv.isEmpty then Option.none
  else
    let p := splitFirstEq nv
    some
      (String.mk (unquoteChars (replacePlus p.1)),
       String.mk (unquoteChars (replacePlus (p.2.getD []))))

/-- Model of `urllib.parse.parse_qsl(qs, keep_blank_values=True)` as invoked
from settings.py line 367: the query string is split on `&` and `;`, and
each fragment is decoded by `qslPair`. -/
def parse_qsl (qs : String) : List (String × String) :=
  (((splitOnChar '&' qs.data).map (splitOnChar ';')).flatten).filterMap qslPair

/-- Model of `urllib.parse.parse_qs(qs, keep_blank_values=True)` (settings.py
line 367): pairs are grouped into an ordered mapping from key to the list of
its submitted values, in submission order. -/
def parse_qs (qs : String) : RawData :=
  (parse_qsl qs).foldl
    (fun acc p =>
      match dictLookup acc p.1 with
      | some vs => dictInsert acc p.1 (vs ++ [p.2])
      | Option.none => acc ++ [(p.1, [p.2])])
    []

/-- The duck-typed Input interface the controller relies on (settings.py uses
`i.render(config)` and `i.parse(data)` only).  The concrete widget catalog
lives in `owrx.form`, outside this file set, so an Input is a capability
record: `render` reads the Input's key(s) from the store and produces widget
markup, `parse` decodes the raw submitted values for its key(s) into a
mapping to decoded values or the deletion marker, raising `ValidationError`
on malformed input (embedded as `Except`). -/
structure Input where
  render : Config → String
  parse : RawData → Except ValidationError (List (Key × Value))

/-- A named, ordered group of Inputs (settings.py lines 31-34).  The
constructor stores the title and inputs; no further checks are performed. -/
structure Section where
  title : String
  inputs : List Input

/-- `Section.render_inputs` (settings.py lines 36-38):
`"".join([i.render(config) for i in self.inputs])`.  The Python method reads
the process-wide store via `Config.get()`; it is passed explicitly here. -/
def Section.render_inputs (s : Section) (config : Config) : String :=
  String.join (s.inputs.map (fun i => i.render config))

/-- `Section.render` (settings.py lines 40-50): the inputs' concatenated
markup wrapped in the literal titled-container template of the source. -/
def Section.render (s : Section) (config : Config) : String :=
  "\n            <div class=\"col-12 settings-section\">\n                <h3 class=\"settings-header\">\n                    "
    ++ s.title
    ++ "\n                </h3>\n                "
    ++ s.render_inputs config
    ++ "\n            </div>\n        "

/-- The dict comprehension `{k: v for i in inputs for k, v in i.parse(data).items()}`
(settings.py line 53 and, over sections, line 368): each element's parse
result is folded into one dict in order; the first exception raised by a
`parse` aborts the comprehension. -/
def parseInputs (data : RawData) (acc : List (Key × Value)) :
    List Input → Except ValidationError (List (Key × Value))
  | [] => Except.ok acc
  | i :: rest =>
    match i.parse data with
    | Except.error e => Except.error e
    | Except.ok m => parseInputs data (dictUpdate acc m) rest

/-- `Section.parse` (settings.py lines 52-53). -/
def Section.parse (s : Section) (data : RawData) :
    Except ValidationError (List (Key × Value)) :=
  parseInputs data [] s.inputs

/-- The section-level dict comprehension of settings.py line 368, folding
every section's parse result into one mapping. -/
def parseSections (data : RawData) (acc : List (Key × Value)) :
    List Section → Except ValidationError (List (Key × Value))
  | [] => Except.ok acc
  | s :: rest =>
    match s.parse data with
    | Except.error e => Except.error e
    | Except.ok m => parseSections data (dictUpdate acc m) rest

/-- Settings.py line 368 with an empty initial dict. -/
def parseAllSections (sections : List Section) (data : RawData) :
    Except ValidationError (List (Key × Value)) :=
  parseSections data [] sections

/-- Externally observable actions of the write path: store mutations
(`config[k] = v` / `del config[k]`), `Config.store()` (persistence) and
`self.send_redirect(target)`. -/
inductive Event where
  | setKey (k : Key) (v : Value)
  | delKey (k : Key)
  | persist
  | redirect (target : String)
deriving DecidableEq

/-- One iteration of the commit loop (settings.py lines 370-375):
`if v is None: if k in config: del config[k]` / `else: config[k] = v`,
returning the updated store and the mutation events it performed. -/
def applyEntry (config : Config) (k : Key) (v : Value) : Config × List Event :=
  match v with
  | Value.null =>
    if dictContains config k then (dictDelete config k, [Event.delKey k])
    else (config, [])
  | v => (dictInsert config k v, [Event.setKey k v])

/-- The whole commit loop `for k, v in data.items(): ...`
(settings.py lines 370-375). -/
def commitStore (config : Config) : List (Key × Value) → Config × List Event
  | [] => (config, [])
  | (k, v) :: rest =>
    let step := applyEntry config k v
    let r := commitStore step.1 rest
    (r.1, step.2 ++ r.2)

/-- Result of a write request: final store, trace of observable events, and
the uncaught `ValidationError` when parsing raised one. -/
structure WriteResult where
  config : Config
  events : List Event
  error : Option ValidationError
deriving DecidableEq

/-- Settings.py lines 368-377 applied to the already decoded body: merge all
sections' parse results, then run the commit loop, `Config.store()` and
`send_redirect("/generalsettings")`.  An exception raised during parsing
propagates before any store access. -/
def processParsedData (sections : List Section) (data : RawData)
    (config : Config) : WriteResult :=
  match parseAllSections sections data with
  | Except.error e => ⟨config, [], some e⟩
  | Except.ok parsed =>
    let r := commitStore config parsed
    ⟨r.1, r.2 ++ [Event.persist, Event.redirect "/generalsettings"], Option.none⟩

/-- `GeneralSettingsController.processFormData` (settings.py lines 366-377):
`data = parse_qs(self.get_body().decode("utf-8"), keep_blank_values=True)`
followed by the parse / commit / persist / redirect sequence.  The schema
(`GeneralSettingsController.sections`, a static list) and the process-wide
`Config` store are explicit parameters. -/
def processFormData (sections : List Section) (body : String)
    (config : Config) : WriteResult :=
  processParsedData sections (parse_qs body) config

/-- Display encoding used by the modelled widgets: a type-appropriate string
for the stored value, the empty string when the key is absent. -/
def encodeDisplay : Option Value → String
  | some (Value.str s) => s
  | some (Value.int n) => toString n
  | some (Value.bool b) => if b then "checked" else ""
  | some (Value.strlist xs) => String.intercalate "," xs
  | some Value.null => ""
  | Option.none => ""

/-- Modelled from the spec: `TextInput` of the `owrx.form` module (outside
this file set).  Default converter semantics: `parse` takes the first raw
string submitted under the Input's key; an absent key or empty value list
decodes to the deletion marker.  `render` embeds the key name and the
encoded current value. -/
def TextInput (id label : String) : Input where
  render config :=
    "<input type=\"text\" name=\"" ++ id ++ "\" value=\""
      ++ encodeDisplay (dictLookup config id) ++ "\" label=\"" ++ label ++ "\"/>"
  parse data :=
    Except.ok
      [(id,
        match dictLookup data id with
        | some (s :: _) => Value.str s
        | _ => Value.null)]

/-- Decimal digit run decoding used by the modelled numeric widgets. -/
def parseDigits (cs : List Char) : Option Nat :=
  if cs.isEmpty then Option.none
  else
    cs.foldl
      (fun acc c =>
        match acc with
        | Option.none => Option.none
        | some n =>
          if '0' ≤ c ∧ c ≤ '9' then some (n * 10 + (c.toNat - '0'.toNat))
          else Option.none)
      (some 0)

/-- Integer decoding of a submitted string (an optional sign followed by
decimal digits), as Python `int()` accepts for the numeric widgets. -/
def parseInt (s : String) : Option Int :=
  match s.data with
  | '-' :: rest => (parseDigits rest).map (fun n => -(n : Int))
  | '+' :: rest => (parseDigits rest).map (fun n => (n : Int))
  | rest => (parseDigits rest).map (fun n => (n : Int))

/-- Modelled from the spec: `NumberInput` of the `owrx.form` module (outside
this file set).  `parse` reads the single raw string as an integer;
non-numeric input raises a `ValidationError`; an absent key decodes to the
deletion marker. -/
def NumberInput (id label : String) : Input where
  render config :=
    "<input type=\"number\" name=\"" ++ id ++ "\" value=\""
      ++ encodeDisplay (dictLookup config id) ++ "\" label=\"" ++ label ++ "\"/>"
  parse data :=
    match dictLookup data id with
    | some (s :: _) =>
      match parseInt s with
      | some n => Except.ok [(id, Value.int n)]
      | Option.none => Except.error ⟨id, "invalid number"⟩
    | _ => Except.ok [(id, Value.null)]

/-- Modelled from the spec: `CheckboxInput` of the `owrx.form` module
(outside this file set).  A key present in the raw data (with any value)
decodes to `true`; an absent key (unchecked box submits nothing) decodes to
the deletion marker. -/
def CheckboxInput (id checkboxText : String) : Input where
  render config :=
    "<input type=\"checkbox\" name=\"" ++ id ++ "\" value=\""
      ++ encodeDisplay (dictLookup config id) ++ "\" text=\"" ++ checkboxText ++ "\"/>"
  parse data :=
    if dictContains data id then Except.ok [(id, Value.bool true)]
    else Except.ok [(id, Value.null)]

/-- Number of `Event.persist` occurrences in a trace. -/
def countPersist : List Event → Nat
  | [] => 0
  | Event.persist :: rest => countPersist rest + 1
  | _ :: rest => countPersist rest

/-- Concrete fixture: a one-section schema holding three Inputs that occur
verbatim in `GeneralSettingsController.sections` — `TextInput
"receiver_name"` (settings.py line 99), `NumberInput "fft_fps"` (line 130)
and `CheckboxInput "aprs_igate_enabled"` (line 268). -/
def exampleSchema : List Section :=
  [⟨"General",
    [TextInput "receiver_name" "Receiver name",
     NumberInput "fft_fps" "FFT speed",
     CheckboxInput "aprs_igate_enabled" "APRS I-Gate"]⟩]

theorem dictLookup_dictInsert_self {α : Type} (d : List (Key × α)) (k : Key) (v : α) :
    dictLookup (dictInsert d k v) k = some v := by
  induction d with
  | nil => simp [dictInsert, dictLookup]
  | cons hd tl ih =>
    cases hd with
    | mk k0 v0 =>
      by_cases h : k0 = k
      · subst h
        simp [dictInsert, dictLookup]
      · show dictLookup (if k0 = k then (k0, v) :: tl else (k0, v0) :: dictInsert tl k v) k = some v
        rw [if_neg h]
        show (if k = k0 then some v0 else dictLookup (dictInsert tl k v) k) = some v
        rw [if_neg (fun hh => h hh.symm)]
        exact ih

theorem dictLookup_dictInsert_ne {α : Type} (d : List (Key × α)) (k k' : Key) (v : α)
    (h : k' ≠ k) : dictLookup (dictInsert d k v) k' = dictLookup d k' := by
  induction d with
  | nil => simp [dictInsert, dictLookup, h]
  | cons hd tl ih =>
    cases hd with
    | mk k0 v0 =>
      by_cases h0 : k0 = k
      · simp only [dictInsert]
        rw [if_pos h0]
        simp only [dictLookup]
        rw [if_neg (h0 ▸ h), if_neg (h0 ▸ h)]
      · simp only [dictInsert]
        rw [if_neg h0]
        simp only [dictLookup]
        by_cases h1 : k' = k0
        · rw [if_pos h1, if_pos h1]
        · rw [if_neg h1, if_neg h1]
          exact ih

theorem dictLookup_dictDelete_self {α : Type} (d : List (Key × α)) (k : Key) :
    dictLookup (dictDelete d k) k = Option.none := by
  induction d with
  | nil => rfl
  | cons hd tl ih =>
    cases hd with
    | mk k0 v0 =>
      simp only [dictDelete, List.filter] at *
      by_cases h : k0 = k
      · simp [h, bne_self_eq_false, ih]
      · have : (k0 != k) = true := by simp [bne_iff_ne, h]
        rw [this]
        simp only [dictLookup]
        rw [if_neg (fun hh => h hh.symm)]
        exact ih

theorem dictLookup_dictDelete_ne {α : Type} (d : List (Key × α)) (k k' : Key)
    (h : k' ≠ k) : dictLookup (dictDelete d k) k' = dictLookup d k' := by
  induction d with
  | nil => rfl
  | cons hd tl ih =>
    cases hd with
    | mk k0 v0 =>
      simp only [dictDelete, List.filter] at *
      by_cases h0 : k0 = k
      · subst h0
        simp only [bne_self_eq_false]
        rw [ih]
        show dictLookup tl k' = if k' = k0 then some v0 else dictLookup tl k'
        rw [if_neg h]
      · have hb : (k0 != k) = true := by simp [bne_iff_ne, h0]
        rw [hb]
        show (if k' = k0 then some v0 else dictLookup (List.filter (fun kv => kv.1 != k) tl) k')
          = if k' = k0 then some v0 else dictLookup tl k'
        by_cases h1 : k' = k0
        · rw [if_pos h1, if_pos h1]
        · rw [if_neg h1, if_neg h1]
          exact ih

theorem dictLookup_eq_none_of_not_mem_keys {α : Type} (d : List (Key × α)) (k : Key)
    (h : k ∉ d.map Prod.fst) : dictLookup d k = Option.none := by
  induction d with
  | nil => rfl
  | cons hd tl ih =>
    cases hd with
    | mk k0 v0 =>
      simp only [List.map, List.mem_cons] at h
      push_neg at h
      simp only [dictLookup]
      rw [if_neg h.1]
      exact ih h.2

theorem mem_keys_dictInsert {α : Type} (d : List (Key × α)) (k k' : Key) (v : α) :
    k' ∈ (dictInsert d k v).map Prod.fst ↔ k' ∈ d.map Prod.fst ∨ k' = k := by
  induction d with
  | nil => simp [dictInsert]
  | cons hd tl ih =>
    cases hd with
    | mk k0 v0 =>
      by_cases h0 : k0 = k
      · subst h0
        simp only [dictInsert, if_pos rfl, List.map, List.mem_cons]
        constructor
        · intro hc
          rcases hc with hc | hc
          · exact Or.inr hc
          · exact Or.inl (Or.inr hc)
        · intro hc
          rcases hc with (hc | hc) | hc
          · exact Or.inl hc
          · exact Or.inr hc
          · exact Or.inl hc
      · simp only [dictInsert, if_neg h0, List.map, List.mem_cons, ih]
        tauto

theorem nodup_keys_dictInsert {α : Type} (d : List (Key × α)) (k : Key) (v : α)
    (h : (d.map Prod.fst).Nodup) : ((dictInsert d k v).map Prod.fst).Nodup := by
  induction d with
  | nil => simp [dictInsert]
  | cons hd tl ih =>
    cases hd with
    | mk k0 v0 =>
      simp only [List.map, List.nodup_cons] at h
      by_cases h0 : k0 = k
      · simp only [dictInsert, if_pos h0, List.map, List.nodup_cons]
        exact h
      · simp only [dictInsert, if_neg h0, List.map, List.nodup_cons]
        refine ⟨?_, ih h.2⟩
        intro hc
        rcases (mem_keys_dictInsert tl k k0 v).mp hc with hc | hc
        · exact h.1 hc
        · exact h0 hc

theorem nodup_keys_dictUpdate {α : Type} (entries d : List (Key × α))
    (h : (d.map Prod.fst).Nodup) : ((dictUpdate d entries).map Prod.fst).Nodup := by
  induction entries generalizing d with
  | nil => exact h
  | cons hd tl ih =>
    simp only [dictUpdate, List.foldl] at *
    exact ih (dictInsert d hd.1 hd.2) (nodup_keys_dictInsert d hd.1 hd.2 h)

theorem dictInsert_eq_append_of_not_mem {α : Type} (d : List (Key × α)) (k : Key) (v : α)
    (h : k ∉ d.map Prod.fst) : dictInsert d k v = d ++ [(k, v)] := by
  induction d with
  | nil => rfl
  | cons hd tl ih =>
    cases hd with
    | mk k0 v0 =>
      simp only [List.map, List.mem_cons] at h
      push_neg at h
      simp only [dictInsert]
      rw [if_neg (fun hh => h.1 hh.symm)]
      simp only [List.cons_append]
      rw [ih h.2]

theorem dictUpdate_eq_append {α : Type} (m d : List (Key × α))
    (hm : (m.map Prod.fst).Nodup) (hdisj : ∀ k ∈ m.map Prod.fst, k ∉ d.map Prod.fst) :
    dictUpdate d m = d ++ m := by
  induction m generalizing d with
  | nil => simp [dictUpdate]
  | cons hd tl ih =>
    cases hd with
    | mk k0 v0 =>
      simp only [List.map, List.nodup_cons] at hm
      simp only [dictUpdate, List.foldl] at *
      rw [dictInsert_eq_append_of_not_mem d k0 v0 (hdisj k0 (List.mem_cons_self _ _))]
      have hfresh : ∀ k ∈ List.map Prod.fst tl, k ∉ List.map Prod.fst (d ++ [(k0, v0)]) := by
        intro k hk
        rw [List.map_append]
        intro hc
        rcases List.mem_append.mp hc with hc | hc
        · exact hdisj k (List.mem_cons.mpr (Or.inr hk)) hc
        · simp only [List.map_cons, List.map_nil, List.mem_singleton] at hc
          exact hm.1 (hc ▸ hk)
      have step := ih (d ++ [(k0, v0)]) hm.2 hfresh
      rw [step, List.append_assoc]
      rfl

theorem lookup_applyEntry_self (config : Config) (k : Key) (v : Value) :
    dictLookup (applyEntry config k v).1 k =
      if v = Value.null then Option.none else some v := by
  cases v with
  | null =>
    simp only [applyEntry, if_pos rfl]
    by_cases h : dictContains config k
    · rw [if_pos h]
      exact dictLookup_dictDelete_self config k
    · rw [if_neg h]
      simp only [dictContains, Option.isSome] at h
      cases hc : dictLookup config k with
      | none => rfl
      | some v0 => rw [hc] at h; simp at h
  | str s =>
    rw [if_neg (fun hh => Value.noConfusion hh)]
    exact dictLookup_dictInsert_self config k _
  | int n =>
    rw [if_neg (fun hh => Value.noConfusion hh)]
    exact dictLookup_dictInsert_self config k _
  | bool b =>
    rw [if_neg (fun hh => Value.noConfusion hh)]
    exact dictLookup_dictInsert_self config k _
  | strlist xs =>
    rw [if_neg (fun hh => Value.noConfusion hh)]
    exact dictLookup_dictInsert_self config k _

theorem lookup_applyEntry_ne (config : Config) (k k' : Key) (v : Value)
    (h : k' ≠ k) : dictLookup (applyEntry config k v).1 k' = dictLookup config k' := by
  cases v with
  | null =>
    simp only [applyEntry]
    by_cases hc : dictContains config k
    · rw [if_pos hc]
      exact dictLookup_dictDelete_ne config k k' h
    · rw [if_neg hc]
  | str s => exact dictLookup_dictInsert_ne config k k' _ h
  | int n => exact dictLookup_dictInsert_ne config k k' _ h
  | bool b => exact dictLookup_dictInsert_ne config k k' _ h
  | strlist xs => exact dictLookup_dictInsert_ne config k k' _ h

theorem applyEntry_events_shape (config : Config) (k : Key) (v : Value) :
    ∀ e ∈ (applyEntry config k v).2,
      (∃ k0 v0, e = Event.setKey k0 v0) ∨ (∃ k0, e = Event.delKey k0) := by
  cases v with
  | null =>
    simp only [applyEntry]
    by_cases hc : dictContains config k
    · rw [if_pos hc]
      intro e he
      simp only [List.mem_singleton] at he
      exact Or.inr ⟨k, he⟩
    · rw [if_neg hc]
      intro e he
      cases he
  | str s => intro e he; simp only [applyEntry, List.mem_singleton] at he; exact Or.inl ⟨k, _, he⟩
  | int n => intro e he; simp only [applyEntry, List.mem_singleton] at he; exact Or.inl ⟨k, _, he⟩
  | bool b => intro e he; simp only [applyEntry, List.mem_singleton] at he; exact Or.inl ⟨k, _, he⟩
  | strlist xs => intro e he; simp only [applyEntry, List.mem_singleton] at he; exact Or.inl ⟨k, _, he⟩

theorem commitStore_lookup_not_mem (parsed : List (Key × Value)) (config : Config)
    (k : Key) (h : dictLookup parsed k = Option.none) :
    dictLookup (commitStore config parsed).1 k = dictLookup config k := by
  induction parsed generalizing config with
  | nil => rfl
  | cons hd tl ih =>
    cases hd with
    | mk k0 v0 =>
      simp only [dictLookup] at h
      by_cases hk : k = k0
      · rw [if_pos hk] at h
        cases h
      · rw [if_neg hk] at h
        simp only [commitStore]
        rw [ih (applyEntry config k0 v0).1 h]
        exact lookup_applyEntry_ne config k0 k v0 hk

theorem commitStore_lookup_mem (parsed : List (Key × Value)) (config : Config)
    (k : Key) (v : Value) (hnd : (parsed.map Prod.fst).Nodup)
    (h : dictLookup parsed k = some v) :
    dictLookup (commitStore config parsed).1 k =
      if v = Value.null then Option.none else some v := by
  induction parsed generalizing config with
  | nil => cases h
  | cons hd tl ih =>
    cases hd with
    | mk k0 v0 =>
      simp only [List.map, List.nodup_cons] at hnd
      simp only [dictLookup] at h
      by_cases hk : k = k0
      · rw [if_pos hk] at h
        injection h with h
        subst h
        subst hk
        have hrest : dictLookup tl k = Option.none :=
          dictLookup_eq_none_of_not_mem_keys tl k hnd.1
        simp only [commitStore]
        rw [commitStore_lookup_not_mem tl (applyEntry config k v0).1 k hrest]
        exact lookup_applyEntry_self config k v0
      · rw [if_neg hk] at h
        simp only [commitStore]
        exact ih (applyEntry config k0 v0).1 hnd.2 h

theorem commitStore_events_shape (parsed : List (Key × Value)) (config : Config) :
    ∀ e ∈ (commitStore config parsed).2,
      (∃ k0 v0, e = Event.setKey k0 v0) ∨ (∃ k0, e = Event.delKey k0) := by
  induction parsed generalizing config with
  | nil => intro e he; cases he
  | cons hd tl ih =>
    cases hd with
    | mk k0 v0 =>
      intro e he
      simp only [commitStore, List.mem_append] at he
      rcases he with he | he
      · exact applyEntry_events_shape config k0 v0 e he
      · exact ih (applyEntry config k0 v0).1 e he

theorem countPersist_append (a b : List Event) :
    countPersist (a ++ b) = countPersist a + countPersist b := by
  induction a with
  | nil => simp [countPersist]
  | cons hd tl ih =>
    cases hd with
    | setKey k v =>
      show countPersist (Event.setKey k v :: (tl ++ b))
        = countPersist (Event.setKey k v :: tl) + countPersist b
      simp only [countPersist]
      exact ih
    | delKey k =>
      show countPersist (Event.delKey k :: (tl ++ b))
        = countPersist (Event.delKey k :: tl) + countPersist b
      simp only [countPersist]
      exact ih
    | persist =>
      show countPersist (Event.persist :: (tl ++ b))
        = countPersist (Event.persist :: tl) + countPersist b
      simp only [countPersist]
      omega
    | redirect t =>
      show countPersist (Event.redirect t :: (tl ++ b))
        = countPersist (Event.redirect t :: tl) + countPersist b
      simp only [countPersist]
      exact ih

theorem countPersist_eq_zero_of_shape (evs : List Event)
    (h : ∀ e ∈ evs, (∃ k0 v0, e = Event.setKey k0 v0) ∨ (∃ k0, e = Event.delKey k0)) :
    countPersist evs = 0 := by
  induction evs with
  | nil => rfl
  | cons hd tl ih =>
    have hrest : countPersist tl = 0 :=
      ih (fun e hm => h e (List.mem_cons_of_mem _ hm))
    rcases h hd (List.mem_cons_self _ _) with ⟨k0, v0, he⟩ | ⟨k0, he⟩
    · subst he
      simp only [countPersist]
      exact hrest
    · subst he
      simp only [countPersist]
      exact hrest

theorem countPersist_commitStore (parsed : List (Key × Value)) (config : Config) :
    countPersist (commitStore config parsed).2 = 0 :=
  countPersist_eq_zero_of_shape _ (commitStore_events_shape parsed config)

theorem parseInputs_error_of_mem (data : RawData) (inputs : List Input)
    (acc : List (Key × Value)) (i : Input) (hi : i ∈ inputs) (e' : ValidationError)
    (he : i.parse data = Except.error e') :
    ∃ e, parseInputs data acc inputs = Except.error e := by
  induction inputs generalizing acc with
  | nil => cases hi
  | cons j rest ih =>
    cases hj : j.parse data with
    | error e0 =>
      refine ⟨e0, ?_⟩
      simp only [parseInputs, hj]
    | ok m =>
      rcases List.mem_cons.mp hi with hij | hij
      · subst hij
        rw [hj] at he
        cases he
      · have step := ih (dictUpdate acc m) hij
        simpa only [parseInputs, hj] using step

theorem parseSections_error_of_mem (data : RawData) (sections : List Section)
    (acc : List (Key × Value)) (s : Section) (hs : s ∈ sections) (i : Input)
    (hi : i ∈ s.inputs) (e' : ValidationError) (he : i.parse data = Except.error e') :
    ∃ e, parseSections data acc sections = Except.error e := by
  induction sections generalizing acc with
  | nil => cases hs
  | cons s0 rest ih =>
    cases hs0 : s0.parse data with
    | error e0 =>
      refine ⟨e0, ?_⟩
      simp only [parseSections, hs0]
    | ok m =>
      rcases List.mem_cons.mp hs with hss | hss
      · subst hss
        obtain ⟨e1, he1⟩ := parseInputs_error_of_mem data s.inputs [] i hi e' he
        rw [Section.parse] at hs0
        rw [he1] at hs0
        cases hs0
      · have step := ih (dictUpdate acc m) hss
        simpa only [parseSections, hs0] using step

theorem parseInputs_nodup (data : RawData) (inputs : List Input) :
    ∀ (acc parsed : List (Key × Value)), (acc.map Prod.fst).Nodup →
      parseInputs data acc inputs = Except.ok parsed → (parsed.map Prod.fst).Nodup := by
  induction inputs with
  | nil =>
    intro acc parsed h hp
    injection hp with hp
    subst hp
    exact h
  | cons j rest ih =>
    intro acc parsed h hp
    cases hj : j.parse data with
    | error e =>
      simp only [parseInputs, hj] at hp
      cases hp
    | ok m =>
      simp only [parseInputs, hj] at hp
      exact ih (dictUpdate acc m) parsed (nodup_keys_dictUpdate m acc h) hp

theorem parseSections_nodup (data : RawData) (sections : List Section) :
    ∀ (acc parsed : List (Key × Value)), (acc.map Prod.fst).Nodup →
      parseSections data acc sections = Except.ok parsed → (parsed.map Prod.fst).Nodup := by
  induction sections with
  | nil =>
    intro acc parsed h hp
    injection hp with hp
    subst hp
    exact h
  | cons s rest ih =>
    intro acc parsed h hp
    cases hs : s.parse data with
    | error e =>
      simp only [parseSections, hs] at hp
      cases hp
    | ok m =>
      simp only [parseSections, hs] at hp
      exact ih (dictUpdate acc m) parsed (nodup_keys_dictUpdate m acc h) hp

theorem parseAllSections_nodup (sections : List Section) (data : RawData)
    (parsed : List (Key × Value)) (hp : parseAllSections sections data = Except.ok parsed) :
    (parsed.map Prod.fst).Nodup :=
  parseSections_nodup data sections [] parsed List.nodup_nil hp

theorem parseInputs_ok_of_disjoint (data : RawData) (inputs : List Input) :
    ∀ (ms : List (List (Key × Value))) (acc : List (Key × Value)),
      inputs.map (fun i => i.parse data) = ms.map Except.ok →
      ((acc ++ ms.flatten).map Prod.fst).Nodup →
      parseInputs data acc inputs = Except.ok (acc ++ ms.flatten) := by
  induction inputs with
  | nil =>
    intro ms acc hp hnd
    cases ms with
    | nil => simp [parseInputs]
    | cons m ms' => cases hp
  | cons j rest ih =>
    intro ms acc hp hnd
    cases ms with
    | nil => cases hp
    | cons m ms' =>
      simp only [List.map] at hp
      injection hp with hp1 hp2
      have hnd' : ((acc.map Prod.fst)
          ++ ((m.map Prod.fst) ++ (ms'.flatten.map Prod.fst))).Nodup := by
        simpa [List.map_append] using hnd
      rcases List.nodup_append.mp hnd' with ⟨hacc, hrest, hdisj⟩
      rcases List.nodup_append.mp hrest with ⟨hm, hflat, hdisj2⟩
      have hupd : dictUpdate acc m = acc ++ m := by
        apply dictUpdate_eq_append m acc hm
        intro k hk hkacc
        exact hdisj hkacc (List.mem_append_left _ hk)
      have hnd2 : (((acc ++ m) ++ ms'.flatten).map Prod.fst).Nodup := by
        rw [List.append_assoc]
        simpa [List.map_append] using hnd'
      have heq : acc ++ (m :: ms').flatten = (acc ++ m) ++ ms'.flatten := by
        rw [List.flatten_cons, ← List.append_assoc]
      rw [heq]
      have step := ih ms' (acc ++ m) hp2 hnd2
      simp only [parseInputs, hp1]
      rw [hupd]
      exact step

theorem unquoteChars_cons_of_ne (c : Char) (rest : List Char) (hc : c ≠ '%') :
    unquoteChars (c :: rest) = c :: unquoteChars rest := by
  rw [unquoteChars.eq_def]
  split
  · rename_i heq
    cases heq
  · rename_i heq
    injection heq with h1a h1b
    exact absurd h1a hc
  · rename_i heq
    injection heq with ha hb
    rw [← ha, ← hb]

theorem unquoteChars_id (cs : List Char) (h : ∀ c ∈ cs, c ≠ '%') :
    unquoteChars cs = cs := by
  induction cs with
  | nil => rfl
  | cons c rest ih =>
    rw [unquoteChars_cons_of_ne c rest (h c (List.mem_cons_self _ _))]
    rw [ih (fun x hm => h x (List.mem_cons_of_mem _ hm))]

theorem replacePlus_id (cs : List Char) (h : ∀ c ∈ cs, c ≠ '+') :
    replacePlus cs = cs := by
  induction cs with
  | nil => rfl
  | cons c rest ih =>
    show (if c = '+' then ' ' else c) :: replacePlus rest = c :: rest
    rw [if_neg (h c (List.mem_cons_self _ _))]
    rw [ih (fun x hm => h x (List.mem_cons_of_mem _ hm))]

theorem splitOnChar_eq_single (sep : Char) (cs : List Char) (h : sep ∉ cs) :
    splitOnChar sep cs = [cs] := by
  induction cs with
  | nil => rfl
  | cons c rest ih =>
    simp only [List.mem_cons] at h
    push_neg at h
    have e : splitOnChar sep (c :: rest) =
        if c = sep then [] :: splitOnChar sep rest
        else
          match splitOnChar sep rest with
          | h :: t => (c :: h) :: t
          | [] => [[c]] := rfl
    rw [e, if_neg (fun hh => h.1 hh.symm), ih h.2]

theorem splitFirstEq_of_append (name : List Char) (h : '=' ∉ name) :
    splitFirstEq (name ++ ['=']) = (name, some []) := by
  induction name with
  | nil => rfl
  | cons c rest ih =>
    simp only [List.mem_cons] at h
    push_neg at h
    have e : splitFirstEq (c :: (rest ++ ['='])) =
        if c = '=' then ([], some (rest ++ ['=']))
        else (c :: (splitFirstEq (rest ++ ['='])).1, (splitFirstEq (rest ++ ['='])).2) := rfl
    rw [List.cons_append, e, if_neg (fun hh => h.1 hh.symm), ih h.2]

theorem parse_qsl_blank_key (k : String)
    (h : ∀ c ∈ k.data, c ≠ '&' ∧ c ≠ ';' ∧ c ≠ '=' ∧ c ≠ '%' ∧ c ≠ '+') :
    parse_qsl (k ++ "=") = [(k, "")] := by
  have hdata : (k ++ "=").data = k.data ++ ['='] := by
    cases k with
    | mk l => rfl
  have hamp : '&' ∉ k.data ++ ['='] := by
    intro hm
    rcases List.mem_append.mp hm with hm | hm
    · exact (h '&' hm).1 rfl
    · simp only [List.mem_singleton] at hm
      cases hm
  have hsemi : ';' ∉ k.data ++ ['='] := by
    intro hm
    rcases List.mem_append.mp hm with hm | hm
    · exact (h ';' hm).2.1 rfl
    · simp only [List.mem_singleton] at hm
      cases hm
  have hs1 : splitOnChar '&' (k.data ++ ['=']) = [k.data ++ ['=']] :=
    splitOnChar_eq_single _ _ hamp
  have hs2 : splitOnChar ';' (k.data ++ ['=']) = [k.data ++ ['=']] :=
    splitOnChar_eq_single _ _ hsemi
  have hne : (k.data ++ ['=']).isEmpty = false := by
    cases k.data with
    | nil => rfl
    | cons a l => rfl
  have hfe : splitFirstEq (k.data ++ ['=']) = (k.data, some []) :=
    splitFirstEq_of_append _ (fun hm => ((h '=' hm).2.2.1) rfl)
  have hrp : replacePlus k.data = k.data :=
    replacePlus_id _ (fun c hm => (h c hm).2.2.2.2)
  have huq : unquoteChars k.data = k.data :=
    unquoteChars_id _ (fun c hm => (h c hm).2.2.2.1)
  have hmk : String.mk k.data = k := by
    cases k with
    | mk l => rfl
  have hq : qslPair (k.data ++ ['=']) = some (k, "") := by
    unfold qslPair
    rw [hne]
    simp only [Bool.false_eq_true, if_false]
    rw [hfe]
    simp only [Option.getD]
    rw [hrp, huq, hmk]
    rfl
  unfold parse_qsl
  rw [hdata, hs1]
  simp only [List.map_cons, List.map_nil, hs2, List.flatten_cons, List.flatten_nil,
    List.append_nil, List.filterMap_cons, hq, List.filterMap_nil]

theorem parse_qs_blank_key (k : String)
    (h : ∀ c ∈ k.data, c ≠ '&' ∧ c ≠ ';' ∧ c ≠ '=' ∧ c ≠ '%' ∧ c ≠ '+') :
    parse_qs (k ++ "=") = [(k, [""])] := by
  unfold parse_qs
  rw [parse_qsl_blank_key k h]
  rfl

/-- Claim C1: for every submitted form body, if parsing any Input raises a
ValidationError during the write path, the configuration store is left
completely unmodified and no observable action happens (zero keys set or
deleted, `Config.store()` not invoked): all parse calls of settings.py
line 368 complete before the first store mutation of lines 370-375, so the
uncaught exception aborts the request with an empty event trace. -/
theorem claim_c1_validation_error_leaves_store_unmodified
    (sections : List Section) (body : String) (config : Config)
    (hfail : ∃ s ∈ sections, ∃ i ∈ s.inputs, ∃ e',
      Input.parse i (parse_qs body) = Except.error e') :
    (processFormData sections body config).config = config
      ∧ (processFormData sections body config).events = []
      ∧ (processFormData sections body config).error.isSome = true := by
  obtain ⟨s, hs, i, hi, e', he⟩ := hfail
  obtain ⟨e, hall⟩ :=
    parseSections_error_of_mem (parse_qs body) sections [] s hs i hi e' he
  have hres : processFormData sections body config = ⟨config, [], some e⟩ := by
    unfold processFormData processParsedData parseAllSections
    rw [hall]
  rw [hres]
  exact ⟨rfl, rfl, rfl⟩

/-- Witness for C1: submitting `fft_fps=fast` against the example schema
(non-numeric text for a numeric field) leaves the store untouched, produces
no events, and surfaces a ValidationError. -/
theorem claim_c1_witness :
    (processFormData exampleSchema "fft_fps=fast"
        [("receiver_name", Value.str "Old")]).config
      = [("receiver_name", Value.str "Old")]
    ∧ (processFormData exampleSchema "fft_fps=fast"
        [("receiver_name", Value.str "Old")]).events = []
    ∧ (processFormData exampleSchema "fft_fps=fast"
        [("receiver_name", Value.str "Old")]).error.isSome = true :=
  claim_c1_validation_error_leaves_store_unmodified exampleSchema "fft_fps=fast"
    [("receiver_name", Value.str "Old")]
    ⟨⟨"General",
      [TextInput "receiver_name" "Receiver name",
       NumberInput "fft_fps" "FFT speed",
       CheckboxInput "aprs_igate_enabled" "APRS I-Gate"]⟩,
     by simp [exampleSchema],
     NumberInput "fft_fps" "FFT speed",
     by simp,
     ⟨"fft_fps", "invalid number"⟩,
     by rfl⟩

/-- Claim C2: for every parsed key-to-value mapping produced by a write
submission, the commit loop of settings.py lines 370-375 removes a key
mapped to the deletion marker from the store (a no-op when the key is
absent, so its lookup stays `none`), sets/overwrites every key mapped to any
other value, leaves keys outside the mapping unchanged, and afterwards the
store is persisted exactly once. -/
theorem claim_c2_delta_applied_and_persisted_once
    (sections : List Section) (body : String) (config : Config)
    (parsed : List (Key × Value))
    (hok : parseAllSections sections (parse_qs body) = Except.ok parsed) :
    (∀ k, dictLookup parsed k = some Value.null →
        dictLookup (processFormData sections body config).config k = Option.none)
    ∧ (∀ k v, dictLookup parsed k = some v → v ≠ Value.null →
        dictLookup (processFormData sections body config).config k = some v)
    ∧ (∀ k, dictLookup parsed k = Option.none →
        dictLookup (processFormData sections body config).config k = dictLookup config k)
    ∧ countPersist (processFormData sections body config).events = 1 := by
  have hnd := parseAllSections_nodup sections (parse_qs body) parsed hok
  have hpf : processFormData sections body config =
      ⟨(commitStore config parsed).1,
       (commitStore config parsed).2
         ++ [Event.persist, Event.redirect "/generalsettings"],
       Option.none⟩ := by
    unfold processFormData processParsedData
    rw [hok]
  rw [hpf]
  refine ⟨?_, ?_, ?_, ?_⟩
  · intro k hk
    have step := commitStore_lookup_mem parsed config k Value.null hnd hk
    rw [if_pos rfl] at step
    exact step
  · intro k v hk hv
    have step := commitStore_lookup_mem parsed config k v hnd hk
    rw [if_neg hv] at step
    exact step
  · intro k hk
    exact commitStore_lookup_not_mem parsed config k hk
  · rw [countPersist_append, countPersist_commitStore]
    rfl

/-- Witness for C2: the end-to-end example of the spec — initial store has
`receiver_name=Old` (and a stale `aprs_igate_enabled=true`); submitting
`receiver_name=New&fft_fps=25` with the checkbox omitted yields a store with
`receiver_name=New`, `fft_fps=25` and `aprs_igate_enabled` absent, persisted
once. -/
theorem claim_c2_witness :
    (dictLookup (processFormData exampleSchema "receiver_name=New&fft_fps=25"
        [("receiver_name", Value.str "Old"), ("aprs_igate_enabled", Value.bool true)]).config
        "receiver_name" = some (Value.str "New"))
    ∧ (dictLookup (processFormData exampleSchema "receiver_name=New&fft_fps=25"
        [("receiver_name", Value.str "Old"), ("aprs_igate_enabled", Value.bool true)]).config
        "fft_fps" = some (Value.int 25))
    ∧ (dictLookup (processFormData exampleSchema "receiver_name=New&fft_fps=25"
        [("receiver_name", Value.str "Old"), ("aprs_igate_enabled", Value.bool true)]).config
        "aprs_igate_enabled" = Option.none)
    ∧ countPersist (processFormData exampleSchema "receiver_name=New&fft_fps=25"
        [("receiver_name", Value.str "Old"), ("aprs_igate_enabled", Value.bool true)]).events
        = 1 := by
  have h := claim_c2_delta_applied_and_persisted_once exampleSchema
    "receiver_name=New&fft_fps=25"
    [("receiver_name", Value.str "Old"), ("aprs_igate_enabled", Value.bool true)]
    [("receiver_name", Value.str "New"), ("fft_fps", Value.int 25),
     ("aprs_igate_enabled", Value.null)]
    (by rfl)
  refine ⟨?_, ?_, ?_, h.2.2.2⟩
  · exact h.2.1 "receiver_name" (Value.str "New") (by rfl)
      (fun hh => Value.noConfusion hh)
  · exact h.2.1 "fft_fps" (Value.int 25) (by rfl)
      (fun hh => Value.noConfusion hh)
  · exact h.1 "aprs_igate_enabled" (by rfl)

/-- Claim C3 counterexample: a submission with two invalid numeric fields
(`fft_fps=fast` and `fft_size=big`) aborts with only the first field's
ValidationError and an empty event trace — no aggregation of the second
field's failure and no re-rendered report is produced, contradicting the
claim that the write path collects every per-field error and reports all
failures together. -/
theorem claim_c3_counterexample :
    processFormData
        [⟨"Waterfall settings",
          [NumberInput "fft_fps" "FFT speed", NumberInput "fft_size" "FFT size"]⟩]
        "fft_fps=fast&fft_size=big" []
      = ⟨[], [], some ⟨"fft_fps", "invalid number"⟩⟩ := by
  rfl

/-- Claim C3 amended: when the first Input of the first Section raises a
ValidationError, exactly that error propagates out of the write path
(settings.py line 368 has no error collection), aborting the request with no
store mutation regardless of any further invalid fields. -/
theorem claim_c3_first_error_propagates
    (title : String) (i1 : Input) (rest : List Input)
    (restSections : List Section) (body : String) (config : Config)
    (e1 : ValidationError)
    (h1 : Input.parse i1 (parse_qs body) = Except.error e1) :
    processFormData (⟨title, i1 :: rest⟩ :: restSections) body config
      = ⟨config, [], some e1⟩ := by
  unfold processFormData processParsedData parseAllSections
  simp only [parseSections, Section.parse, parseInputs, h1]

/-- Witness for the amended C3: two invalid numeric fields `a=x&b=y`; only
the first field's error surfaces. -/
theorem claim_c3_witness :
    processFormData [⟨"W", [NumberInput "a" "A", NumberInput "b" "B"]⟩]
        "a=x&b=y" []
      = ⟨[], [], some ⟨"a", "invalid number"⟩⟩ :=
  claim_c3_first_error_propagates "W" (NumberInput "a" "A") [NumberInput "b" "B"]
    [] "a=x&b=y" [] ⟨"a", "invalid number"⟩ (by rfl)

/-- Claim C4 counterexample: a Section whose two Inputs both claim the store
key `receiver_name` is constructed without any failure (the constructor just
stores title and inputs, settings.py lines 32-34) and its parse silently
resolves the duplicate at merge time in favour of the later Input — no
SchemaError is raised at construction or at any later point, contradicting
the claim that such schemas are detected and rejected. -/
theorem claim_c4_counterexample :
    Section.parse
        ⟨"Dup",
         [TextInput "receiver_name" "first", CheckboxInput "receiver_name" "second"]⟩
        (parse_qs "receiver_name=hello")
      = Except.ok [("receiver_name", Value.bool true)] := by
  rfl

/-- Claim C4 amended: duplicate store keys across Inputs are not detected
anywhere: Section construction always succeeds, and at parse-merge time
(settings.py line 53) the later Input's value silently overwrites the
earlier one's. -/
theorem claim_c4_duplicate_key_silently_resolved
    (title : String) (i1 i2 : Input) (data : RawData) (k : Key) (v1 v2 : Value)
    (h1 : Input.parse i1 data = Except.ok [(k, v1)])
    (h2 : Input.parse i2 data = Except.ok [(k, v2)]) :
    Section.parse ⟨title, [i1, i2]⟩ data = Except.ok [(k, v2)] := by
  simp only [Section.parse, parseInputs, h1, h2, dictUpdate, List.foldl, dictInsert,
    if_pos]

/-- Witness for the amended C4: a checkbox and a text Input sharing key `x`;
the later text Input's value wins. -/
theorem claim_c4_witness :
    Section.parse ⟨"D2", [CheckboxInput "x" "c", TextInput "x" "t"]⟩
        [("x", ["v"])]
      = Except.ok [("x", Value.str "v")] :=
  claim_c4_duplicate_key_silently_resolved "D2" (CheckboxInput "x" "c")
    (TextInput "x" "t") [("x", ["v"])] "x" (Value.bool true) (Value.str "v")
    (by rfl) (by rfl)

/-- Claim C5: for every write submission in which no parse error occurs, the
result carries no error and its event trace is exactly the commit loop's
mutation events followed by `Event.persist` and then
`Event.redirect "/generalsettings"` (the post-redirect-get response), so the
redirect is issued only after the full delta has been applied and
`Config.store()` has been called; every event before the persist is a store
mutation. -/
theorem claim_c5_success_redirects_after_persist
    (sections : List Section) (body : String) (config : Config)
    (parsed : List (Key × Value))
    (hok : parseAllSections sections (parse_qs body) = Except.ok parsed) :
    processFormData sections body config =
      ⟨(commitStore config parsed).1,
       (commitStore config parsed).2
         ++ [Event.persist, Event.redirect "/generalsettings"],
       Option.none⟩
    ∧ ∀ e ∈ (commitStore config parsed).2,
        (∃ k0 v0, e = Event.setKey k0 v0) ∨ (∃ k0, e = Event.delKey k0) := by
  constructor
  · unfold processFormData processParsedData
    rw [hok]
  · exact commitStore_events_shape parsed config

/-- Witness for C5: a successful checkbox submission produces the mutation,
then the persist, then the redirect. -/
theorem claim_c5_witness :
    processFormData [⟨"APRS settings", [CheckboxInput "aprs_igate_enabled" "APRS I-Gate"]⟩]
        "aprs_igate_enabled=on" []
      = ⟨[("aprs_igate_enabled", Value.bool true)],
         [Event.setKey "aprs_igate_enabled" (Value.bool true), Event.persist,
          Event.redirect "/generalsettings"],
         Option.none⟩ :=
  (claim_c5_success_redirects_after_persist
    [⟨"APRS settings", [CheckboxInput "aprs_igate_enabled" "APRS I-Gate"]⟩]
    "aprs_igate_enabled=on" []
    [("aprs_igate_enabled", Value.bool true)] (by rfl)).1

/-- Claim C6: the write path first decodes the URL-encoded body into the
canonical key-to-ordered-string-list mapping via `parse_qs` (settings.py
line 367) and only then applies the Sections' parse to that mapping
(line 368): `processFormData` factors through `processParsedData ∘ parse_qs`,
so two bodies with the same decoded mapping are processed identically and no
Input-level decoding sees the raw body. -/
theorem claim_c6_decode_before_parse
    (sections : List Section) (body : String) (config : Config) :
    processFormData sections body config
      = processParsedData sections (parse_qs body) config
    ∧ ∀ body', parse_qs body' = parse_qs body →
        processFormData sections body' config = processFormData sections body config := by
  refine ⟨rfl, ?_⟩
  intro body' hb
  unfold processFormData
  rw [hb]

/-- Witness for C6: the bodies `receiver_name=%41` and `receiver_name=A`
decode to the same canonical mapping and are processed identically. -/
theorem claim_c6_witness :
    processFormData exampleSchema "receiver_name=%41" []
      = processFormData exampleSchema "receiver_name=A" [] :=
  (claim_c6_decode_before_parse exampleSchema "receiver_name=A" []).2
    "receiver_name=%41" (by decide)

/-- Claim C7: every Section renders as the concatenation of its Inputs'
render outputs in declared order, wrapped in the titled container template
of settings.py lines 40-50, and, when each Input's parse succeeds with
pairwise-disjoint keys, `Section.parse` returns the union (concatenation)
of the Inputs' parse results as one mapping. -/
theorem claim_c7_section_compositional
    (s : Section) (config : Config) (data : RawData)
    (ms : List (List (Key × Value)))
    (hp : s.inputs.map (fun i => i.parse data) = ms.map Except.ok)
    (hnd : (ms.flatten.map Prod.fst).Nodup) :
    s.render config =
      "\n            <div class=\"col-12 settings-section\">\n                <h3 class=\"settings-header\">\n                    "
        ++ s.title
        ++ "\n                </h3>\n                "
        ++ String.join (s.inputs.map (fun i => i.render config))
        ++ "\n            </div>\n        "
    ∧ s.parse data = Except.ok ms.flatten := by
  constructor
  · rfl
  · have step := parseInputs_ok_of_disjoint data s.inputs ms [] hp (by simpa using hnd)
    simpa [Section.parse] using step

/-- Witness for C7: a two-Input section parses to the union of the Inputs'
results. -/
theorem claim_c7_witness :
    Section.parse
        ⟨"Receiver information",
         [TextInput "receiver_name" "Receiver name",
          NumberInput "receiver_asl" "Receiver elevation"]⟩
        [("receiver_name", ["New"]), ("receiver_asl", ["5"])]
      = Except.ok [("receiver_name", Value.str "New"), ("receiver_asl", Value.int 5)] :=
  (claim_c7_section_compositional
    ⟨"Receiver information",
     [TextInput "receiver_name" "Receiver name",
      NumberInput "receiver_asl" "Receiver elevation"]⟩
    [] [("receiver_name", ["New"]), ("receiver_asl", ["5"])]
    [[("receiver_name", Value.str "New")], [("receiver_asl", Value.int 5)]]
    (by rfl) (by decide)).2

/-- Claim C8: in the commit loop the deletion marker is exactly the value
`None` (`Value.null`): a key's entry is removed if and only if its parsed
value is `null`, and every non-null value — including the falsy values
`False`, `0`, the empty string and the empty collection — is stored under
the key rather than deleting it, as the concrete evaluations of `applyEntry`
show. -/
theorem claim_c8_deletion_iff_none :
    (∀ (config : Config) (k : Key) (v : Value),
        dictLookup (applyEntry config k v).1 k =
          if v = Value.null then Option.none else some v)
    ∧ applyEntry [("k", Value.str "old")] "k" (Value.bool false)
        = ([("k", Value.bool false)], [Event.setKey "k" (Value.bool false)])
    ∧ applyEntry [("k", Value.str "old")] "k" (Value.int 0)
        = ([("k", Value.int 0)], [Event.setKey "k" (Value.int 0)])
    ∧ applyEntry [("k", Value.str "old")] "k" (Value.str "")
        = ([("k", Value.str "")], [Event.setKey "k" (Value.str "")])
    ∧ applyEntry [("k", Value.str "old")] "k" (Value.strlist [])
        = ([("k", Value.strlist [])], [Event.setKey "k" (Value.strlist [])])
    ∧ applyEntry [("k", Value.str "old")] "k" Value.null = ([], [Event.delKey "k"]) := by
  refine ⟨lookup_applyEntry_self, ?_, ?_, ?_, ?_, ?_⟩ <;> rfl

/-- Claim C9: when two Inputs claim the same store key — across two Sections
or within one Section — the merged parse mapping of settings.py line 368
(resp. line 53) holds the later Input's value: the later parse result
silently overwrites the earlier one and no error is raised. -/
theorem claim_c9_later_input_overwrites
    (t1 t2 : String) (i1 i2 : Input) (data : RawData) (k : Key) (v1 v2 : Value)
    (h1 : Input.parse i1 data = Except.ok [(k, v1)])
    (h2 : Input.parse i2 data = Except.ok [(k, v2)]) :
    parseAllSections [⟨t1, [i1]⟩, ⟨t2, [i2]⟩] data = Except.ok [(k, v2)]
    ∧ parseAllSections [⟨t1, [i1, i2]⟩] data = Except.ok [(k, v2)] := by
  constructor <;>
    simp only [parseAllSections, parseSections, Section.parse, parseInputs, h1, h2,
      dictUpdate, List.foldl, dictInsert, if_pos]

/-- Witness for C9: a text Input and a checkbox Input both claiming
`receiver_name`; the later one's decoded value is kept in both the
cross-section and the single-section merge. -/
theorem claim_c9_witness :
    parseAllSections
        [⟨"A", [TextInput "receiver_name" "l"]⟩,
         ⟨"B", [CheckboxInput "receiver_name" "c"]⟩]
        [("receiver_name", ["New"])]
      = Except.ok [("receiver_name", Value.bool true)]
    ∧ parseAllSections
        [⟨"A", [TextInput "receiver_name" "l", CheckboxInput "receiver_name" "c"]⟩]
        [("receiver_name", ["New"])]
      = Except.ok [("receiver_name", Value.bool true)] :=
  claim_c9_later_input_overwrites "A" "B" (TextInput "receiver_name" "l")
    (CheckboxInput "receiver_name" "c") [("receiver_name", ["New"])]
    "receiver_name" (Value.str "New") (Value.bool true) (by rfl) (by rfl)

/-- Claim C10: the body decoder keeps blank values (`keep_blank_values=True`
at settings.py line 367): a field submitted as `key=` yields the key bound
to a list holding the empty string in the canonical mapping, while an
omitted field (empty body) leaves the key absent — so an Input's parse can
distinguish submitted-empty from omitted. -/
theorem claim_c10_blank_values_kept (k : String)
    (h : ∀ c ∈ k.data, c ≠ '&' ∧ c ≠ ';' ∧ c ≠ '=' ∧ c ≠ '%' ∧ c ≠ '+') :
    dictLookup (parse_qs (k ++ "=")) k = some [""]
    ∧ dictLookup (parse_qs "") k = Option.none := by
  constructor
  · rw [parse_qs_blank_key k h]
    simp [dictLookup]
  · rfl

/-- Witness for C10: the optional field `aprs_igate_comment` submitted blank
is present with `[""]`; on an empty body it is absent. -/
theorem claim_c10_witness :
    dictLookup (parse_qs ("aprs_igate_comment" ++ "=")) "aprs_igate_comment"
      = some [""]
    ∧ dictLookup (parse_qs "") "aprs_igate_comment" = Option.none :=
  claim_c10_blank_values_kept "aprs_igate_comment" (by decide)

end OpenWebRX
